import Mathlib

/-!
Shallow embedding of `src/base/utils/random.cpp` (qBittorrent).

The file models:
* the three platform variants of the anonymous-namespace class `RandomLayer`
  (Windows / Linux / POSIX fallback), each of which satisfies the C++
  `UniformRandomBitGenerator` contract with `result_type = uint32_t`,
  `min() = 0` and `max() = 2^32 - 1`;
* the public entry point `Utils::Random::rand(min, max)`, which builds a
  `std::uniform_int_distribution<uint32_t>(min, max)` and feeds it the shared
  `RandomLayer` generator.

The OS facilities consumed by the code (`getrandom`, `fopen`/`fread`/`fclose`,
`ProcessPrng`) are modelled as explicit outcome streams supplied as arguments,
and the observable behaviour (which OS calls are issued with which arguments,
which value is returned, which fatal `qFatal` abort fires) is computed from
those outcomes.  `qFatal` terminates the process, so it is modelled as a
terminal result constructor rather than as a recoverable value.

`std::uniform_int_distribution` is external library code; it is modelled by
the standard rejection-based downscaling algorithm used by the C++ standard
library for the case where the generator and the result type are both 32-bit
(generator range `[0, 2^32-1]`): with `urange = (b - a) mod 2^32`, if
`urange` is strictly smaller than the generator range `2^32 - 1` the draw is
rejected until it falls below `past = (urange+1) * ((2^32-1) / (urange+1))`,
then divided by the scaling factor; if `urange` equals the generator range the
raw draw is returned unchanged.  The result is `ret + a` in `uint32`
arithmetic.  Draws are consumed from an explicit list; `none` means the
supplied list of draws was exhausted before the rejection loop accepted one.
-/

/-- The modulus of `uint32_t` arithmetic: `2^32`. -/
def U32 : Nat := 4294967296

/-- `RandomLayer::max() - RandomLayer::min()`: the range of the generator,
`2^32 - 1` for every platform variant. -/
def urngrange : Nat := U32 - 1

/-- The rejection loop of `std::uniform_int_distribution` (downscaling case):
keep drawing until the raw draw is below `past`, then divide by `scaling`.
Returns the accepted value together with the unconsumed draws, or `none` if
the draw list runs out. -/
def downscale (past scaling : Nat) : List Nat → Option (Nat × List Nat)
  | [] => none
  | d :: ds => if d < past then some (d / scaling, ds) else downscale past scaling ds

/-- `std::uniform_int_distribution<uint32_t>(a, b)` applied to a full-range
32-bit generator whose successive raw outputs are `draws`.  Returns the
sampled value and the remaining draws. -/
def uniformIntSample (a b : Nat) (draws : List Nat) : Option (Nat × List Nat) :=
  let urange := (b + U32 - a) % U32
  if urange < urngrange then
    let uerange := urange + 1
    let scaling := urngrange / uerange
    let past := uerange * scaling
    match downscale past scaling draws with
    | none => none
    | some (ret, rest) => some ((ret + a) % U32, rest)
  else
    match draws with
    | [] => none
    | d :: ds => some ((d + a) % U32, ds)

/-- `Utils::Random::rand(min, max)`: constructs a
`std::uniform_int_distribution<uint32_t>(min, max)` and invokes it on the
shared `RandomLayer` generator, whose raw 32-bit outputs are `draws`.
The function performs no validation of `min`/`max` whatsoever. -/
def Utils.Random.rand (min max : Nat) (draws : List Nat) : Option (Nat × List Nat) :=
  uniformIntSample min max draws

/-! ### Platform B: Linux `RandomLayer` (`Q_OS_LINUX`)

`operator()` runs `for (int i = 0; i < RETRY_MAX; ++i)` and in each iteration
issues `::getrandom(&buf, sizeof(buf), 0)` — a request for exactly
`sizeof(uint32_t) = 4` bytes with flags `0`.  A return equal to `4` is
success; a negative return is an immediate `qFatal` with `errno`; anything
else falls through to the next iteration.  Exhausting the loop reaches
`qFatal("getrandom() failed. Reason: too many retries.")`. -/

/-- The arguments of one `::getrandom` invocation that the code can vary:
the number of bytes requested and the flags word. -/
structure GetrandomCall where
  nbytes : Nat
  flags : Nat
deriving DecidableEq

/-- The outcome the kernel produces for one `::getrandom` invocation:
the `ssize_t` return value, the (fully or partially) filled 4-byte buffer
interpreted as a `uint32_t`, and the value of `errno` after the call. -/
structure GetrandomOutcome where
  res : Int
  buf : Nat
  errno : Nat

/-- A short read in the sense of the Linux layer: a non-negative return
that is not the requested 4 bytes (the retry condition of the loop). -/
def GetrandomOutcome.IsShort (o : GetrandomOutcome) : Prop :=
  0 ≤ o.res ∧ o.res ≠ 4

instance (o : GetrandomOutcome) : Decidable o.IsShort := by
  unfold GetrandomOutcome.IsShort; infer_instance

/-- Result of one Linux-layer draw.  `qFatal` terminates the process, so the
two fatal constructors are terminal: no value is ever produced past them.
`fatalGetrandomError` records the `errno` reported in the message
`"getrandom() error. Reason: %s. Error code: %d."`; `fatalTooManyRetries`
is the abort `"getrandom() failed. Reason: too many retries."`. -/
inductive LinuxDrawResult where
  | ok (v : Nat)
  | fatalGetrandomError (errno : Nat)
  | fatalTooManyRetries
deriving DecidableEq

/-- `const int RETRY_MAX = 3;` -/
def RETRY_MAX : Nat := 3

/-- The retry loop of the Linux `RandomLayer::operator()`, at attempt index
`i` with the given number of remaining iterations.  Returns the trace of
`getrandom` calls issued together with the result. -/
def linuxGo (outs : Nat → GetrandomOutcome) (i : Nat) :
    Nat → List GetrandomCall × LinuxDrawResult
  | 0 => ([], .fatalTooManyRetries)
  | fuel + 1 =>
    let o := outs i
    if o.res = 4 then ([⟨4, 0⟩], .ok o.buf)
    else if o.res < 0 then ([⟨4, 0⟩], .fatalGetrandomError o.errno)
    else
      let pr := linuxGo outs (i + 1) fuel
      (⟨4, 0⟩ :: pr.1, pr.2)

/-- One draw of the Linux `RandomLayer`: the whole `operator()` body, where
`outs i` is the kernel's outcome for the `i`-th `getrandom` attempt. -/
def LinuxRandomLayer.draw (outs : Nat → GetrandomOutcome) :
    List GetrandomCall × LinuxDrawResult :=
  linuxGo outs 0 RETRY_MAX

/-! ### Platform C: POSIX fallback `RandomLayer`

The constructor runs `fopen("/dev/urandom", "rb")` and `qFatal`s with `errno`
if the handle is null; `operator()` runs `fread(&buf, sizeof(buf), 1, m_randDev)`
and `qFatal`s with `errno` unless the return is `1`; the destructor runs
`fclose(m_randDev)`.  The lifecycle below strings these together: one
construction, a sequence of draws, and (on a normal exit, i.e. when no
`qFatal` aborted the process first) the destruction at process exit. -/

/-- One observable C stdio operation issued by the POSIX layer. -/
inductive FileOp where
  | fopenOp (path mode : String)
  | freadOp (size count : Nat)
  | fcloseOp
deriving DecidableEq

/-- Whether a file operation is an `fopen`. -/
def FileOp.isOpen : FileOp → Bool
  | .fopenOp _ _ => true
  | _ => false

/-- The outcome of one `fread` call: the returned item count, the buffer
contents interpreted as `uint32_t`, and `errno` after the call. -/
structure FreadOutcome where
  items : Nat
  buf : Nat
  errno : Nat

/-- Result of a whole POSIX-layer lifecycle.  The fatal constructors record
the `errno` reported in the corresponding `qFatal` message
(`"Failed to open /dev/urandom. ..."` / `"Read /dev/urandom error. ..."`). -/
inductive PosixResult where
  | ok (vs : List Nat)
  | fatalOpen (errno : Nat)
  | fatalRead (errno : Nat)
deriving DecidableEq

/-- The sequence of `operator()` draws of the POSIX layer: each consumes one
`fread` outcome; a non-`1` item count aborts immediately. -/
def posixReads : List FreadOutcome → List FileOp × PosixResult
  | [] => ([], .ok [])
  | o :: os =>
    if o.items = 1 then
      let pr := posixReads os
      (FileOp.freadOp 4 1 :: pr.1,
       match pr.2 with
       | .ok vs => .ok (o.buf :: vs)
       | r => r)
    else
      ([FileOp.freadOp 4 1], .fatalRead o.errno)

/-- The whole POSIX-layer lifecycle: construction (with `openOk` telling
whether `fopen` returned a non-null handle and `openErrno` the `errno`
otherwise), then the given sequence of draws, then — only if the process was
not aborted by a `qFatal` — the destructor's `fclose` at process exit. -/
def PosixRandomLayer.lifecycle (openOk : Bool) (openErrno : Nat)
    (reads : List FreadOutcome) : List FileOp × PosixResult :=
  if openOk then
    let pr := posixReads reads
    match pr.2 with
    | .ok vs => (FileOp.fopenOp "/dev/urandom" "rb" :: pr.1 ++ [FileOp.fcloseOp], .ok vs)
    | r => (FileOp.fopenOp "/dev/urandom" "rb" :: pr.1, r)
  else
    ([FileOp.fopenOp "/dev/urandom" "rb"], .fatalOpen openErrno)

/-! ### Platform A: Windows `RandomLayer` (`Q_OS_WIN`)

The constructor resolves `ProcessPrng` from `BCryptPrimitives.dll` via
`Utils::OS::loadWinAPI` and `qFatal`s with `"Failed to load ProcessPrng()."`
if the pointer is null.  `operator()` calls the resolved function once with a
4-byte buffer (`sizeof(buf)`); a false return is
`qFatal("ProcessPrng() failed.")` — there is no retry. -/

/-- Result of constructing the Windows layer, as a function of the symbol
lookup result (`none` models a null function pointer). -/
inductive WinConstructResult where
  | ok
  | fatalLoadProcessPrng
deriving DecidableEq

/-- The Windows `RandomLayer` constructor. -/
def WinRandomLayer.construct (sym : Option Unit) : WinConstructResult :=
  match sym with
  | some _ => .ok
  | none => .fatalLoadProcessPrng

/-- The outcome of one `ProcessPrng` call: the `BOOL` return and the filled
4-byte buffer interpreted as `uint32_t`. -/
structure ProcessPrngOutcome where
  success : Bool
  buf : Nat

/-- Result of one Windows-layer draw. -/
inductive WinDrawResult where
  | ok (v : Nat)
  | fatalProcessPrngFailed
deriving DecidableEq

/-- One draw of the Windows `RandomLayer`: issues exactly one `ProcessPrng`
call (the trace lists the buffer sizes passed), then either returns the
buffer or aborts fatally. -/
def WinRandomLayer.draw (o : ProcessPrngOutcome) : List Nat × WinDrawResult :=
  ([4], if o.success then .ok o.buf else .fatalProcessPrngFailed)

/-! ### Concrete outcome streams used by the witnesses -/

/-- A `getrandom` outcome stream: a 2-byte short read on the first attempt,
then full 4-byte successes delivering the value 123. -/
def exLinuxOuts : Nat → GetrandomOutcome :=
  fun i => if i = 0 then ⟨2, 0, 0⟩ else ⟨4, 123, 0⟩

/-- A `getrandom` outcome stream that always reports the error `EAGAIN`-style
result `-1` with `errno = 11`. -/
def exLinuxErrOuts : Nat → GetrandomOutcome :=
  fun _ => ⟨-1, 0, 11⟩

/-- A `getrandom` outcome stream of unending short reads. -/
def exLinuxShortOuts : Nat → GetrandomOutcome :=
  fun _ => ⟨1, 0, 0⟩

/-- Two successful `fread` outcomes delivering 7 and 9. -/
def exPosixReads : List FreadOutcome :=
  [⟨1, 7, 0⟩, ⟨1, 9, 0⟩]

/-- A successful `fread` followed by a failed one with `errno = 5`. -/
def exPosixBadReads : List FreadOutcome :=
  [⟨1, 7, 0⟩, ⟨0, 0, 5⟩]

/-! ## Helper lemmas about the distribution algorithm -/

/-- In `uint32` arithmetic, `b - a` for `a ≤ b < 2^32` does not wrap. -/
theorem urange_eq {a b : Nat} (hab : a ≤ b) (hb : b < U32) :
    (b + U32 - a) % U32 = b - a := by
  have h1 : b + U32 - a = (b - a) + U32 := by omega
  rw [h1, Nat.add_mod_right, Nat.mod_eq_of_lt (by omega)]

/-- Any value accepted by the rejection loop is `d / scaling` for some raw
draw `d < past`. -/
theorem downscale_some_bound {past scaling : Nat} {ds : List Nat} {q : Nat}
    {rest : List Nat} (h : downscale past scaling ds = some (q, rest)) :
    ∃ d, d < past ∧ q = d / scaling := by
  induction ds with
  | nil => simp [downscale] at h
  | cons d ds ih =>
    simp only [downscale] at h
    split at h
    · rename_i hd
      simp only [Option.some.injEq, Prod.mk.injEq] at h
      exact ⟨d, hd, h.1.symm⟩
    · exact ih h

/-- The rejection loop only inspects the draws it consumes: its result is
determined by the consumed prefix, whatever follows. -/
theorem downscale_append {past scaling : Nat} {ds : List Nat} {q : Nat}
    {rest : List Nat} (h : downscale past scaling ds = some (q, rest)) :
    ∃ pre, ds = pre ++ rest ∧
      ∀ rest2, downscale past scaling (pre ++ rest2) = some (q, rest2) := by
  induction ds with
  | nil => simp [downscale] at h
  | cons d ds ih =>
    simp only [downscale] at h
    split at h
    · rename_i hd
      simp only [Option.some.injEq, Prod.mk.injEq] at h
      refine ⟨[d], by simp [h.2], fun rest2 => ?_⟩
      simp [downscale, hd, h.1]
    · rename_i hd
      obtain ⟨pre, hpre, hall⟩ := ih h
      refine ⟨d :: pre, by simp [hpre], fun rest2 => ?_⟩
      simp only [List.cons_append, downscale]
      rw [if_neg hd]
      exact hall rest2

/-! ## Claims about `Utils::Random::rand` -/

/-- Claim C1: for every pair `(min, max)` of 32-bit unsigned integers with
`min ≤ max`, every value produced by `rand(min, max)` lies in the inclusive
range `[min, max]`. -/
theorem rand_in_range {min max : Nat} {draws : List Nat} {v : Nat}
    {rest : List Nat} (hmax : max < U32) (hle : min ≤ max)
    (h : Utils.Random.rand min max draws = some (v, rest)) :
    min ≤ v ∧ v ≤ max := by
  have hU : U32 = 4294967296 := rfl
  simp only [Utils.Random.rand, uniformIntSample, urngrange] at h
  rw [urange_eq hle hmax] at h
  split at h
  · rename_i hlt
    split at h
    · simp at h
    · rename_i ret rest0 heq
      simp only [Option.some.injEq, Prod.mk.injEq] at h
      obtain ⟨d, hd, hret⟩ := downscale_some_bound heq
      have hs : 0 < (U32 - 1) / (max - min + 1) :=
        (Nat.one_le_div_iff (by omega)).mpr (by omega)
      have hretlt : ret < max - min + 1 := by
        rw [hret]
        exact (Nat.div_lt_iff_lt_mul hs).mpr hd
      have hmod : (ret + min) % U32 = ret + min := Nat.mod_eq_of_lt (by omega)
      rw [hmod] at h
      omega
  · rename_i hge
    split at h
    · simp at h
    · rename_i d ds
      simp only [Option.some.injEq, Prod.mk.injEq] at h
      have hv : (d + min) % U32 = v := h.1
      have hlt : (d + min) % U32 < U32 := Nat.mod_lt _ (by omega)
      omega

/-- Witness for C1 at `rand(3, 10)` with raw draw `5`. -/
theorem rand_in_range_witness :
    (10 : Nat) < U32 ∧ (3 : Nat) ≤ 10 ∧ (3 : Nat) ≤ 3 ∧ (3 : Nat) ≤ 10 := by
  refine ⟨by norm_num [U32], by norm_num, ?_⟩
  exact @rand_in_range 3 10 [5] 3 [] (by norm_num [U32]) (by norm_num) rfl

/-- Claim C3: for every 32-bit unsigned integer `m`, whenever `rand(m, m)`
produces a value, that value is `m`. -/
theorem rand_const_range {m : Nat} {draws : List Nat} {v : Nat} {rest : List Nat}
    (hm : m < U32) (h : Utils.Random.rand m m draws = some (v, rest)) : v = m := by
  have hU : U32 = 4294967296 := rfl
  simp only [Utils.Random.rand, uniformIntSample, urngrange] at h
  have h0 : (m + U32 - m) % U32 = 0 := by
    have he : m + U32 - m = U32 := by omega
    rw [he, Nat.mod_self]
  rw [h0] at h
  rw [if_pos (by omega)] at h
  split at h
  · simp at h
  · rename_i ret rest0 heq
    obtain ⟨d, hd, hret⟩ := downscale_some_bound heq
    simp only [Option.some.injEq, Prod.mk.injEq] at h
    have hd1 : d < U32 - 1 := by simpa using hd
    have hret0 : ret = 0 := by
      rw [hret]
      simpa using Nat.div_eq_of_lt (by simpa using hd1)
    have hv : (ret + m) % U32 = v := h.1
    rw [hret0, Nat.zero_add] at hv
    have hmm : m % U32 = m := Nat.mod_eq_of_lt hm
    omega

/-- Witness for C3: `rand(5, 5)` with raw draw `7` returns `5` (and likewise
`rand(0, 0)` with raw draw `3` returns `0`). -/
theorem rand_const_range_witness : (5 : Nat) = 5 ∧ (0 : Nat) = 0 := by
  constructor
  · exact (@rand_const_range 5 [7] 5 [] (by norm_num [U32]) rfl).symm ▸ rfl
  · exact (@rand_const_range 0 [3] 0 [] (by norm_num [U32]) rfl).symm ▸ rfl

/-- Claim C9: `rand(0, 2^32 - 1)` consumes exactly one raw 32-bit draw and
returns it unchanged — for the full range the distribution's remapping is the
identity and no draw is rejected. -/
theorem rand_full_range_identity {d : Nat} (ds : List Nat) (hd : d < U32) :
    Utils.Random.rand 0 (U32 - 1) (d :: ds) = some (d, ds) := by
  have hU : U32 = 4294967296 := rfl
  simp only [Utils.Random.rand, uniformIntSample, urngrange]
  have h1 : (U32 - 1 + U32 - 0) % U32 = U32 - 1 := by
    have he : U32 - 1 + U32 - 0 = (U32 - 1) + U32 := by omega
    rw [he, Nat.add_mod_right, Nat.mod_eq_of_lt (by omega)]
  rw [h1, if_neg (lt_irrefl _)]
  simp [Nat.mod_eq_of_lt hd]

/-- Witness for C9 at raw draw `42` followed by an unconsumed draw `1`. -/
theorem rand_full_range_identity_witness :
    Utils.Random.rand 0 (U32 - 1) [42, 1] = some (42, [1]) :=
  @rand_full_range_identity 42 [1] (by norm_num [U32])

/-- Claim C10: for `min ≤ max` the value returned by `rand(min, max)` is a
deterministic function of `(min, max)` and the sequence of raw draws actually
consumed from the entropy source: the consumed draws form a prefix of the
stream, and any run fed the same prefix returns the identical value. -/
theorem rand_deterministic_on_draws {min max : Nat} {draws : List Nat} {v : Nat}
    {rest : List Nat} (hle : min ≤ max)
    (h : Utils.Random.rand min max draws = some (v, rest)) :
    ∃ pre, draws = pre ++ rest ∧
      ∀ rest2, Utils.Random.rand min max (pre ++ rest2) = some (v, rest2) := by
  simp only [Utils.Random.rand, uniformIntSample, urngrange] at h ⊢
  split at h
  · rename_i hlt
    split at h
    · simp at h
    · rename_i ret rest0 heq
      simp only [Option.some.injEq, Prod.mk.injEq] at h
      obtain ⟨hv, hr⟩ := h
      obtain ⟨pre, hpre, hall⟩ := downscale_append heq
      refine ⟨pre, by rw [hpre, hr], fun rest2 => ?_⟩
      rw [if_pos hlt, hall rest2]
      simp [hv]
  · rename_i hge
    split at h
    · simp at h
    · rename_i d ds
      simp only [Option.some.injEq, Prod.mk.injEq] at h
      refine ⟨[d], by simp [h.2], fun rest2 => ?_⟩
      rw [if_neg hge]
      simp [h.1]

/-- Witness for C10 at `rand(3, 10)` with draw stream `[5]`. -/
theorem rand_deterministic_on_draws_witness :
    ∃ pre, [5] = pre ++ ([] : List Nat) ∧
      ∀ rest2, Utils.Random.rand 3 10 (pre ++ rest2) = some (3, rest2) :=
  @rand_deterministic_on_draws 3 10 [5] 3 [] (by norm_num) rfl

/-- Claim C8: `rand` performs no validation of its arguments — for every
`(min, max)`, including `min > max`, the call is handed unchanged to the
underlying `uniform_int_distribution` algorithm and no error is reported; in
particular the inverted-range call `rand(5, 3)` proceeds into the algorithm
(here computing with the wrapped range) and yields a value. -/
theorem rand_no_validation :
    (∀ min max draws, Utils.Random.rand min max draws = uniformIntSample min max draws) ∧
    Utils.Random.rand 5 3 [0] = some (5, []) :=
  ⟨fun _ _ _ => rfl, rfl⟩

/-! ## Helper lemmas about the Linux retry loop -/

/-- Every `getrandom` call the loop issues requests 4 bytes with flags `0`,
and at most `fuel` calls are issued. -/
theorem linuxGo_calls (outs : Nat → GetrandomOutcome) (fuel : Nat) :
    ∀ i, (∀ c ∈ (linuxGo outs i fuel).1, c = (⟨4, 0⟩ : GetrandomCall)) ∧
      (linuxGo outs i fuel).1.length ≤ fuel := by
  induction fuel with
  | zero => intro i; simp [linuxGo]
  | succ fuel ih =>
    intro i
    simp only [linuxGo]
    split
    · simp
    · split
      · simp
      · obtain ⟨ih1, ih2⟩ := ih (i + 1)
        refine ⟨?_, ?_⟩
        · intro c hc
          rcases List.mem_cons.mp hc with h | h
          · exact h
          · exact ih1 c h
        · simpa using Nat.succ_le_succ ih2

/-- If the first `k` attempts are short reads and attempt `k` succeeds with a
full 4-byte read, the loop stops after `k + 1` calls and returns the buffer
of attempt `k`. -/
theorem linuxGo_success (outs : Nat → GetrandomOutcome) (fuel : Nat) :
    ∀ i k, k < fuel → (∀ j, j < k → (outs (i + j)).IsShort) →
      (outs (i + k)).res = 4 →
      linuxGo outs i fuel =
        (List.replicate (k + 1) ⟨4, 0⟩, .ok ((outs (i + k)).buf)) := by
  induction fuel with
  | zero => intro i k hk; omega
  | succ fuel ih =>
    intro i k hk hshort hres
    cases k with
    | zero =>
      simp only [Nat.add_zero] at hres ⊢
      simp only [linuxGo]
      rw [if_pos hres]
      simp
    | succ k =>
      have h0 : (outs i).IsShort := by simpa using hshort 0 (Nat.succ_pos k)
      have e : i + 1 + k = i + (k + 1) := by omega
      have hshort1 : ∀ j, j < k → (outs (i + 1 + j)).IsShort := by
        intro j hj
        have ej : i + 1 + j = i + (j + 1) := by omega
        rw [ej]
        exact hshort (j + 1) (by omega)
      have hres1 : (outs (i + 1 + k)).res = 4 := by rw [e]; exact hres
      simp only [linuxGo]
      rw [if_neg h0.2, if_neg (not_lt.mpr h0.1)]
      rw [ih (i + 1) k (by omega) hshort1 hres1]
      simp [List.replicate_succ, e]

/-- If the first `k` attempts are short reads and attempt `k` reports an
error (negative return), the loop aborts immediately after `k + 1` calls with
the `errno` of attempt `k` — the error is not retried. -/
theorem linuxGo_err (outs : Nat → GetrandomOutcome) (fuel : Nat) :
    ∀ i k, k < fuel → (∀ j, j < k → (outs (i + j)).IsShort) →
      (outs (i + k)).res < 0 →
      linuxGo outs i fuel =
        (List.replicate (k + 1) ⟨4, 0⟩, .fatalGetrandomError ((outs (i + k)).errno)) := by
  induction fuel with
  | zero => intro i k hk; omega
  | succ fuel ih =>
    intro i k hk hshort hres
    cases k with
    | zero =>
      simp only [Nat.add_zero] at hres ⊢
      simp only [linuxGo]
      rw [if_neg (by omega), if_pos hres]
      simp
    | succ k =>
      have h0 : (outs i).IsShort := by simpa using hshort 0 (Nat.succ_pos k)
      have e : i + 1 + k = i + (k + 1) := by omega
      have hshort1 : ∀ j, j < k → (outs (i + 1 + j)).IsShort := by
        intro j hj
        have ej : i + 1 + j = i + (j + 1) := by omega
        rw [ej]
        exact hshort (j + 1) (by omega)
      have hres1 : (outs (i + 1 + k)).res < 0 := by rw [e]; exact hres
      simp only [linuxGo]
      rw [if_neg h0.2, if_neg (not_lt.mpr h0.1)]
      rw [ih (i + 1) k (by omega) hshort1 hres1]
      simp [List.replicate_succ, e]

/-- If every attempt is a short read, the loop exhausts its `fuel` attempts
and aborts with the "too many retries" fatal. -/
theorem linuxGo_exhaust (outs : Nat → GetrandomOutcome) (fuel : Nat) :
    ∀ i, (∀ j, j < fuel → (outs (i + j)).IsShort) →
      linuxGo outs i fuel = (List.replicate fuel ⟨4, 0⟩, .fatalTooManyRetries) := by
  induction fuel with
  | zero => intro i _; simp [linuxGo]
  | succ fuel ih =>
    intro i hshort
    have h0 : (outs i).IsShort := by simpa using hshort 0 (Nat.succ_pos fuel)
    have hshort1 : ∀ j, j < fuel → (outs (i + 1 + j)).IsShort := by
      intro j hj
      have ej : i + 1 + j = i + (j + 1) := by omega
      rw [ej]
      exact hshort (j + 1) (by omega)
    simp only [linuxGo]
    rw [if_neg h0.2, if_neg (not_lt.mpr h0.1)]
    rw [ih (i + 1) hshort1]
    simp [List.replicate_succ]

/-- Conversely, a value is only ever produced by a genuine full 4-byte read
within the retry bound, all earlier attempts being short reads. -/
theorem linuxGo_ok_inv (outs : Nat → GetrandomOutcome) (fuel : Nat) :
    ∀ i v, (linuxGo outs i fuel).2 = .ok v →
      ∃ k, k < fuel ∧ (outs (i + k)).res = 4 ∧ v = (outs (i + k)).buf ∧
        ∀ j, j < k → (outs (i + j)).IsShort := by
  induction fuel with
  | zero => intro i v h; simp [linuxGo] at h
  | succ fuel ih =>
    intro i v h
    simp only [linuxGo] at h
    by_cases h4 : (outs i).res = 4
    · rw [if_pos h4] at h
      simp only [LinuxDrawResult.ok.injEq] at h
      exact ⟨0, by omega, by simpa using h4, by simpa using h.symm, by omega⟩
    · rw [if_neg h4] at h
      by_cases hneg : (outs i).res < 0
      · rw [if_pos hneg] at h
        simp at h
      · rw [if_neg hneg] at h
        obtain ⟨k, hk, h4', hv, hshort⟩ := ih (i + 1) v (by simpa using h)
        refine ⟨k + 1, by omega, ?_, ?_, ?_⟩
        · have e : i + (k + 1) = i + 1 + k := by omega
          rw [e]; exact h4'
        · have e : i + (k + 1) = i + 1 + k := by omega
          rw [e]; exact hv
        · intro j hj
          cases j with
          | zero => exact ⟨not_lt.mp hneg, h4⟩
          | succ j =>
            have e : i + (j + 1) = i + 1 + j := by omega
            rw [e]
            exact hshort j (by omega)

/-! ## Helper lemmas about the POSIX draw sequence -/

/-- Every stdio operation issued by the POSIX draw sequence is an `fread` of
one item of 4 bytes. -/
theorem posixReads_calls : ∀ reads : List FreadOutcome,
    ∀ op ∈ (posixReads reads).1, op = FileOp.freadOp 4 1 := by
  intro reads
  induction reads with
  | nil => simp [posixReads]
  | cons o os ih =>
    simp only [posixReads]
    split
    · intro op hop
      rcases List.mem_cons.mp hop with h | h
      · exact h
      · exact ih op h
    · simp

/-- When every `fread` returns its one requested item, the draw sequence
issues one `fread` per draw and returns the buffers in order. -/
theorem posixReads_ok : ∀ reads : List FreadOutcome, (∀ o ∈ reads, o.items = 1) →
    posixReads reads =
      (List.replicate reads.length (FileOp.freadOp 4 1),
       .ok (reads.map (fun o => o.buf))) := by
  intro reads
  induction reads with
  | nil => intro _; simp [posixReads]
  | cons o os ih =>
    intro hall
    have h1 : o.items = 1 := hall o (by simp)
    have ih1 := ih (fun p hp => hall p (by simp [hp]))
    simp only [posixReads]
    rw [if_pos h1, ih1]
    simp [List.replicate_succ]

/-- The first `fread` that does not return its one item aborts the sequence
immediately with that call's `errno`; no further `fread` is issued. -/
theorem posixReads_fail : ∀ (pre : List FreadOutcome) (o : FreadOutcome)
    (rest : List FreadOutcome), (∀ p ∈ pre, p.items = 1) → o.items ≠ 1 →
    posixReads (pre ++ o :: rest) =
      (List.replicate (pre.length + 1) (FileOp.freadOp 4 1), .fatalRead o.errno) := by
  intro pre
  induction pre with
  | nil =>
    intro o rest _ ho
    simp only [List.nil_append, posixReads]
    rw [if_neg ho]
    simp
  | cons p ps ih =>
    intro o rest hall ho
    have h1 : p.items = 1 := hall p (by simp)
    simp only [List.cons_append, posixReads, List.append_eq]
    rw [if_pos h1, ih o rest (fun q hq => hall q (by simp [hq])) ho]
    simp [List.replicate_succ]

/-- Conversely, the draw sequence only delivers values when every `fread`
returned its requested item, and the values are exactly the buffers. -/
theorem posixReads_ok_inv : ∀ (reads : List FreadOutcome) (vs : List Nat),
    (posixReads reads).2 = .ok vs →
    vs = reads.map (fun o => o.buf) ∧ ∀ o ∈ reads, o.items = 1 := by
  intro reads
  induction reads with
  | nil =>
    intro vs h
    simp only [posixReads, PosixResult.ok.injEq] at h
    simp [← h]
  | cons o os ih =>
    intro vs h
    simp only [posixReads] at h
    by_cases h1 : o.items = 1
    · rw [if_pos h1] at h
      rcases hr : (posixReads os).2 with vs' | e | e
      · rw [hr] at h
        simp only [PosixResult.ok.injEq] at h
        obtain ⟨hvs, hitems⟩ := ih vs' hr
        refine ⟨?_, ?_⟩
        · rw [← h]
          simp [hvs]
        · intro p hp
          rcases List.mem_cons.mp hp with hq | hq
          · rw [hq]; exact h1
          · exact hitems p hq
      · rw [hr] at h; simp at h
      · rw [hr] at h; simp at h
    · rw [if_neg h1] at h
      simp at h

/-- Claim C2: on Linux, each draw issues `getrandom` calls requesting exactly
4 bytes with flags `0`, makes at most `RETRY_MAX = 3` attempts, retries after
a short read, aborts fatally at once (no retry) with the OS error code when a
negative result is returned, and aborts fatally with the "too many retries"
message when all 3 attempts are short reads. -/
theorem linux_layer_retry_policy (outs : Nat → GetrandomOutcome) :
    (∀ c ∈ (LinuxRandomLayer.draw outs).1, c = (⟨4, 0⟩ : GetrandomCall)) ∧
    ((LinuxRandomLayer.draw outs).1.length ≤ RETRY_MAX) ∧
    (∀ k, k < RETRY_MAX → (∀ j, j < k → (outs j).IsShort) → (outs k).res < 0 →
      LinuxRandomLayer.draw outs =
        (List.replicate (k + 1) ⟨4, 0⟩, .fatalGetrandomError ((outs k).errno))) ∧
    (∀ k, k < RETRY_MAX → (∀ j, j < k → (outs j).IsShort) → (outs k).res = 4 →
      LinuxRandomLayer.draw outs =
        (List.replicate (k + 1) ⟨4, 0⟩, .ok ((outs k).buf))) ∧
    ((∀ j, j < RETRY_MAX → (outs j).IsShort) →
      LinuxRandomLayer.draw outs =
        (List.replicate RETRY_MAX ⟨4, 0⟩, .fatalTooManyRetries)) := by
  refine ⟨(linuxGo_calls outs RETRY_MAX 0).1, (linuxGo_calls outs RETRY_MAX 0).2,
    ?_, ?_, ?_⟩
  · intro k hk hshort hres
    have h := linuxGo_err outs RETRY_MAX 0 k hk
      (fun j hj => by simpa using hshort j hj) (by simpa using hres)
    simpa [LinuxRandomLayer.draw] using h
  · intro k hk hshort hres
    have h := linuxGo_success outs RETRY_MAX 0 k hk
      (fun j hj => by simpa using hshort j hj) (by simpa using hres)
    simpa [LinuxRandomLayer.draw] using h
  · intro hshort
    exact linuxGo_exhaust outs RETRY_MAX 0 (fun j hj => by simpa using hshort j hj)

/-- Witness for C2: a short read on the first attempt, then a full 4-byte
read returning 123 — the layer issues exactly two `(4, 0)` requests. -/
theorem linux_layer_retry_policy_witness :
    LinuxRandomLayer.draw exLinuxOuts = (List.replicate 2 ⟨4, 0⟩, .ok 123) := by
  have h := (linux_layer_retry_policy exLinuxOuts).2.2.2.1 1 (by norm_num [RETRY_MAX])
    (fun j hj => by
      have hj0 : j = 0 := by omega
      subst hj0
      exact ⟨by norm_num [exLinuxOuts], by norm_num [exLinuxOuts]⟩)
    (by norm_num [exLinuxOuts])
  simpa [exLinuxOuts] using h

/-- Claim C4: the POSIX fallback layer opens `/dev/urandom` in mode `"rb"`
exactly once, as its first operation; a failed open aborts fatally with the
OS error code before any read; every read requests exactly 4 bytes (one
4-byte item) from the open handle; a short/failed read aborts fatally with
the OS error code (and the handle is then not closed, the process dies); and
when all draws succeed the handle is closed at teardown, as the final
operation. -/
theorem posix_layer_lifecycle (openOk : Bool) (openErrno : Nat)
    (reads : List FreadOutcome) :
    (((PosixRandomLayer.lifecycle openOk openErrno reads).1.countP FileOp.isOpen) = 1) ∧
    ((PosixRandomLayer.lifecycle openOk openErrno reads).1.head? =
      some (FileOp.fopenOp "/dev/urandom" "rb")) ∧
    (openOk = false →
      PosixRandomLayer.lifecycle openOk openErrno reads =
        ([FileOp.fopenOp "/dev/urandom" "rb"], .fatalOpen openErrno)) ∧
    (∀ s c, FileOp.freadOp s c ∈ (PosixRandomLayer.lifecycle openOk openErrno reads).1 →
      s = 4 ∧ c = 1) ∧
    (openOk = true → (∀ o ∈ reads, o.items = 1) →
      PosixRandomLayer.lifecycle openOk openErrno reads =
        (FileOp.fopenOp "/dev/urandom" "rb" ::
          List.replicate reads.length (FileOp.freadOp 4 1) ++ [FileOp.fcloseOp],
         .ok (reads.map (fun o => o.buf)))) ∧
    (openOk = true → ∀ pre o rest, reads = pre ++ o :: rest →
      (∀ p ∈ pre, p.items = 1) → o.items ≠ 1 →
      PosixRandomLayer.lifecycle openOk openErrno reads =
        (FileOp.fopenOp "/dev/urandom" "rb" ::
          List.replicate (pre.length + 1) (FileOp.freadOp 4 1),
         .fatalRead o.errno)) := by
  have hz : (posixReads reads).1.countP FileOp.isOpen = 0 :=
    List.countP_eq_zero.mpr (fun a ha => by
      rw [posixReads_calls reads a ha]; simp [FileOp.isOpen])
  refine ⟨?_, ?_, ?_, ?_, ?_, ?_⟩
  · cases openOk with
    | false => simp [PosixRandomLayer.lifecycle, FileOp.isOpen]
    | true =>
      rcases hr : (posixReads reads).2 with vs | e | e <;>
        simp [PosixRandomLayer.lifecycle, hr, List.countP_cons, List.countP_append,
          hz, FileOp.isOpen]
  · cases openOk with
    | false => simp [PosixRandomLayer.lifecycle]
    | true =>
      rcases hr : (posixReads reads).2 with vs | e | e <;>
        simp [PosixRandomLayer.lifecycle, hr]
  · intro h
    subst h
    simp [PosixRandomLayer.lifecycle]
  · intro s c hmem
    cases openOk with
    | false =>
      simp [PosixRandomLayer.lifecycle] at hmem
    | true =>
      have hfread : FileOp.freadOp s c ∈ (posixReads reads).1 →
          s = 4 ∧ c = 1 := by
        intro hin
        have h := posixReads_calls reads _ hin
        simp only [FileOp.freadOp.injEq] at h
        exact h
      rcases hr : (posixReads reads).2 with vs | e | e <;>
        simp [PosixRandomLayer.lifecycle, hr] at hmem <;>
        exact hfread hmem
  · intro hOk hall
    subst hOk
    simp [PosixRandomLayer.lifecycle, posixReads_ok reads hall]
  · intro hOk pre o rest hre hpre ho
    subst hOk
    subst hre
    simp [PosixRandomLayer.lifecycle, posixReads_fail pre o rest hpre ho]

/-- Witness for C4: two successful 4-byte reads delivering 7 and 9, then the
handle is closed at teardown. -/
theorem posix_layer_lifecycle_witness :
    PosixRandomLayer.lifecycle true 0 exPosixReads =
      (FileOp.fopenOp "/dev/urandom" "rb" ::
        List.replicate exPosixReads.length (FileOp.freadOp 4 1) ++ [FileOp.fcloseOp],
       .ok (exPosixReads.map (fun o => o.buf))) :=
  (posix_layer_lifecycle true 0 exPosixReads).2.2.2.2.1 rfl
    (by intro o ho
        simp only [exPosixReads, List.mem_cons, List.not_mem_nil, or_false] at ho
        rcases ho with h | h <;> rw [h])

/-- Claim C5: the Windows layer aborts fatally at construction when the
`ProcessPrng` symbol cannot be resolved and constructs normally otherwise;
each draw issues exactly one `ProcessPrng` call on a 4-byte buffer, returns
the buffer on success, and aborts fatally (with no retry) on a non-success
return. -/
theorem win_layer_policy :
    (WinRandomLayer.construct none = .fatalLoadProcessPrng) ∧
    (∀ f, WinRandomLayer.construct (some f) = .ok) ∧
    (∀ o, (WinRandomLayer.draw o).1 = [4]) ∧
    (∀ o, o.success = true → (WinRandomLayer.draw o).2 = .ok o.buf) ∧
    (∀ o, o.success = false → (WinRandomLayer.draw o).2 = .fatalProcessPrngFailed) := by
  refine ⟨rfl, fun f => rfl, fun o => rfl, fun o h => ?_, fun o h => ?_⟩ <;>
    simp [WinRandomLayer.draw, h]

/-- Witness for C5: a failing `ProcessPrng` aborts, a succeeding one returns
its buffer. -/
theorem win_layer_policy_witness :
    (WinRandomLayer.draw ⟨false, 0⟩).2 = .fatalProcessPrngFailed ∧
    (WinRandomLayer.draw ⟨true, 55⟩).2 = .ok 55 :=
  ⟨win_layer_policy.2.2.2.2 ⟨false, 0⟩ rfl, win_layer_policy.2.2.2.1 ⟨true, 55⟩ rfl⟩

/-- Claim C6: no operation returns a recoverable error value — a produced
value always comes from genuinely successful OS calls (a full 4-byte
`getrandom` read within the retry bound after only short reads, an `fread`
sequence in which every read returned its item, a successful `ProcessPrng`
call), every other execution ends in a fatal abort carrying the OS error
code where available, and no degraded fallback value is ever substituted. -/
theorem no_recoverable_error :
    (∀ outs v, (LinuxRandomLayer.draw outs).2 = .ok v →
      ∃ k, k < RETRY_MAX ∧ (outs k).res = 4 ∧ v = (outs k).buf ∧
        ∀ j, j < k → (outs j).IsShort) ∧
    (∀ (openOk : Bool) (openErrno : Nat) (reads : List FreadOutcome) (vs : List Nat),
      (PosixRandomLayer.lifecycle openOk openErrno reads).2 = .ok vs →
      openOk = true ∧ vs = reads.map (fun o => o.buf) ∧ ∀ o ∈ reads, o.items = 1) ∧
    (∀ o v, (WinRandomLayer.draw o).2 = .ok v → o.success = true ∧ v = o.buf) := by
  refine ⟨?_, ?_, ?_⟩
  · intro outs v h
    obtain ⟨k, hk, h4, hv, hshort⟩ := linuxGo_ok_inv outs RETRY_MAX 0 v h
    exact ⟨k, hk, by simpa using h4, by simpa using hv,
      fun j hj => by simpa using hshort j hj⟩
  · intro openOk openErrno reads vs h
    cases openOk with
    | false => simp [PosixRandomLayer.lifecycle] at h
    | true =>
      rcases hr : (posixReads reads).2 with vs' | e | e
      · simp only [PosixRandomLayer.lifecycle, hr, if_true] at h
        obtain ⟨hvs, hitems⟩ := posixReads_ok_inv reads vs' hr
        simp only [PosixResult.ok.injEq] at h
        exact ⟨rfl, h ▸ hvs, hitems⟩
      · simp [PosixRandomLayer.lifecycle, hr] at h
      · simp [PosixRandomLayer.lifecycle, hr] at h
  · intro o v h
    cases hs : o.success with
    | false => simp [WinRandomLayer.draw, hs] at h
    | true =>
      simp only [WinRandomLayer.draw, hs, if_true, WinDrawResult.ok.injEq] at h
      exact ⟨rfl, h.symm⟩

/-- Witness for C6: the Linux draw over `exLinuxOuts` produced 123, so a full
4-byte read had to occur within the bound, preceded only by short reads. -/
theorem no_recoverable_error_witness :
    ∃ k, k < RETRY_MAX ∧ (exLinuxOuts k).res = 4 ∧ 123 = (exLinuxOuts k).buf ∧
      ∀ j, j < k → (exLinuxOuts j).IsShort :=
  no_recoverable_error.1 exLinuxOuts 123 rfl
